import Mathlib

/-!
Verification development for the logstor log-structured block storage engine
(g_logstor.c).  The C source is shallowly embedded: machine integers become
Nat (with explicit masks/mods where the C code wraps), fallible code returns
Option or a small result inductive, the MY_ASSERT macro is modelled as a
failure outcome, and loops whose C form is `goto again` or `while` become
fuel-based structural recursions (the fuel bound is always sufficient for the
states of interest and is part of each theorem's statement).

Note on SECTOR_SIZE: the constant is defined in the missing header
g_logstor.h, but the source's own
  _Static_assert(sizeof(struct _seg_sum) - sizeof(struct _ss_soft) == SECTOR_SIZE)
with ss_rm[SECTORS_PER_SEG - 1] entries of 4 bytes plus two uint16 fields
forces 4 * (SEG_SIZE / SECTOR_SIZE) = SECTOR_SIZE, i.e. SECTOR_SIZE = 4096
and SECTORS_PER_SEG = 1024 (matching the comment `// 1024` in the source and
the 0xfff / 0x3ff masks in file_access and ma_index_get).
-/

/-- SECTOR_SIZE, forced to 4096 by the segment-summary static assert. -/
def SECTOR_SIZE : Nat := 4096

/-- SEG_SIZE 0x400000 (4 MiB). -/
def SEG_SIZE : Nat := 0x400000

/-- SECTORS_PER_SEG = SEG_SIZE / SECTOR_SIZE = 1024. -/
def SECTORS_PER_SEG : Nat := SEG_SIZE / SECTOR_SIZE

/-- SEG_SUM_OFF = SECTORS_PER_SEG - 1: segment summary offset in a segment. -/
def SEG_SUM_OFF : Nat := SECTORS_PER_SEG - 1

/-- BLOCKS_PER_SEG = SEG_SIZE / SECTOR_SIZE - 1 = 1023. -/
def BLOCKS_PER_SEG : Nat := SEG_SIZE / SECTOR_SIZE - 1

/-- SEG_DATA_START: the data segments start here. -/
def SEG_DATA_START : Nat := 1

/-- SECTOR_NULL: this sector address cannot map to any block address. -/
def SECTOR_NULL : Nat := 0

/-- SECTOR_DELETE: delete marker for a block. -/
def SECTOR_DELETE : Nat := 2

/-- META_BASE: metadata block start address. -/
def META_BASE : Nat := 0xC0000000

/-- FD_COUNT: number of forward-map file descriptors (BASE, ACTIVE, DELTA). -/
def FD_COUNT : Nat := 3

/-- SIG_LOGSTOR: the superblock signature "LOGS". -/
def SIG_LOGSTOR : Nat := 0x4C4F4753

/-- META_LEAF_DEPTH from the source. -/
def META_LEAF_DEPTH : Nat := 2

/-- IS_META_ADDR(x): (x & META_BASE) == META_BASE. -/
def isMetaAddr (x : Nat) : Bool := x &&& META_BASE == META_BASE

/-- sega2sa: segment address to sector address, `sega << SA2SEGA_SHIFT`. -/
def sega2sa (sega : Nat) : Nat := sega <<< 10

/--
The logstor in-memory state relevant to the superblock, the segment
allocator, the hot/cold write fronts and the FD_ACTIVE forward map.
The forward-map file is modelled at its documented abstraction, a flat
array of 4-byte sector addresses indexed by block address (`fm`); the
fbuf cache that implements it is modelled separately below.
-/
structure LogSt where
  maxBlockCnt : Nat
  segCnt : Nat
  segFreeCnt : Nat
  segAllocP : Nat
  segReclaimP : Nat
  segAge : Nat → Nat
  hotSega : Nat
  hotAllocP : Nat
  hotRm : Nat → Nat
  coldSega : Nat
  coldAllocP : Nat
  coldRm : Nat → Nat
  fm : Nat → Nat

/-- Point update of a Nat-indexed map, as done by a C array store. -/
def updAt (f : Nat → Nat) (k v : Nat) : Nat → Nat :=
  fun b => if b = k then v else f b

/--
A run of stores `f[k+i] := v+i` for `i < n`, as performed by the C loops
`seg_sum->ss_rm[ss_alloc_p++] = ba + i` and
`file_write_4byte(sc, FD_ACTIVE, ba++, sa++)`.
-/
def updRange (f : Nat → Nat) (k v n : Nat) : Nat → Nat :=
  (List.range n).foldl (fun g i => updAt g (k + i) (v + i)) f

/-- Result of seg_alloc: success, MY_ASSERT failure, or non-termination cut. -/
inductive AllocRes where
  | ok (st : LogSt)
  | assertFail
  | diverge

/--
The circular candidate walk of seg_alloc (the `again:` loop).  Each
iteration takes `sega = seg_alloc_p`, post-increments `seg_alloc_p` with
wrap to SEG_DATA_START, runs the three MY_ASSERTs, then skips the
candidate if it equals the cold front's sega or its seg_age is nonzero.
Note the source only ASSERTS `sega != sega_hot`; it does not skip the hot
front, and it has no NoSpace exit: `diverge` marks fuel exhaustion of a
loop that the C code would never leave.
-/
def segAllocLoop (cold hot : Nat) : LogSt → Nat → Option (Nat × LogSt) ⊕ Unit
  | _, 0 => Sum.inl none
  | st, fuel + 1 =>
    let sega := st.segAllocP
    let p' := if st.segAllocP + 1 = st.segCnt then SEG_DATA_START else st.segAllocP + 1
    let st' := { st with segAllocP := p' }
    if ¬ p' < st'.segCnt then Sum.inr ()
    else if p' + 1 = st'.segReclaimP then Sum.inr ()
    else if sega = hot then Sum.inr ()
    else if sega = cold then segAllocLoop cold hot st' fuel
    else if st'.segAge sega ≠ 0 then segAllocLoop cold hot st' fuel
    else Sum.inl (some (sega, st'))

/--
seg_alloc with the hot segment summary as target: runs the candidate walk
(snapshotting `sega_cold`/`sega_hot` at entry as the source does), then
binds the chosen sega, resets `ss_alloc_p` to 0, decrements `seg_free_cnt`
and checks the final MY_ASSERT `0 < seg_free_cnt < seg_cnt`.
-/
def segAllocHot (st : LogSt) (fuel : Nat) : AllocRes :=
  match segAllocLoop st.coldSega st.hotSega st fuel with
  | Sum.inr () => AllocRes.assertFail
  | Sum.inl none => AllocRes.diverge
  | Sum.inl (some (sega, st')) =>
    let st'' := { st' with hotSega := sega, hotAllocP := 0,
                           segFreeCnt := st'.segFreeCnt - 1 }
    if 0 < st''.segFreeCnt ∧ st''.segFreeCnt < st''.segCnt then AllocRes.ok st''
    else AllocRes.assertFail

/-- seg_alloc with the cold segment summary as target (used by logstor_open). -/
def segAllocCold (st : LogSt) (fuel : Nat) : AllocRes :=
  match segAllocLoop st.coldSega st.hotSega st fuel with
  | Sum.inr () => AllocRes.assertFail
  | Sum.inl none => AllocRes.diverge
  | Sum.inl (some (sega, st')) =>
    let st'' := { st' with coldSega := sega, coldAllocP := 0,
                           segFreeCnt := st'.segFreeCnt - 1 }
    if 0 < st''.segFreeCnt ∧ st''.segFreeCnt < st''.segCnt then AllocRes.ok st''
    else AllocRes.assertFail

/-- Bool test of an AllocRes success. -/
def allocOk : AllocRes → Bool
  | AllocRes.ok _ => true
  | _ => false

/-- Extract the state of a successful AllocRes, defaulting to the given state. -/
def allocSt (r : AllocRes) (dflt : LogSt) : LogSt :=
  match r with
  | AllocRes.ok st => st
  | _ => dflt

/--
Observable events of the write path, in program order: the backing-device
data write issued by g_io_request, a reverse-map slot store, the segment
summary flush, a segment allocation, the clean_check call, and a forward
map store via file_write_4byte.  clean_check is recorded as a single
event: the cleaner's own internal writes are outside the scope of the
ordering claims about a client request's blocks.
-/
inductive Ev where
  | dataWrite (sa n : Nat)
  | recRM (slot ba : Nat)
  | segSumWrite (sega : Nat)
  | segAllocEv (sega : Nat)
  | cleanCheck
  | fwdMap (ba sa : Nat)
deriving DecidableEq

/-- The reverse-map record events `ss_rm[p+i] = ba+i` for i < n. -/
def rmList (p ba n : Nat) : List Ev :=
  (List.range n).map fun i => Ev.recRM (p + i) (ba + i)

/-- The forward-map store events `file_write_4byte(FD_ACTIVE, ba+i, sa+i)` for i < n. -/
def fmList (ba sa n : Nat) : List Ev :=
  (List.range n).map fun i => Ev.fwdMap (ba + i) (sa + i)

/--
The `while (sec_remain > 0)` loop of _logstor_write targeting the hot
front.  Per iteration: count = min(sec_remain, SEG_SUM_OFF - ss_alloc_p);
issue the data write at sa = sega2sa(sega) + ss_alloc_p (with the
MY_ASSERT `sa + count < seg_cnt * SECTORS_PER_SEG`); record the reverse
map advancing ss_alloc_p; if the segment filled, seg_sum_write then
seg_alloc then clean_check; then record the forward map.  `none` models a
MY_ASSERT failure (or fuel exhaustion; fuel = sec_remain always suffices
since every iteration consumes count >= 1).  The guard `secFree = 0`
corresponds to the entry MY_ASSERT `ss_alloc_p < SEG_SUM_OFF`: past the
entry it can never fire because a filled segment is immediately replaced.
-/
def writeLoop (afuel : Nat) : Nat → LogSt → Nat → Nat → Option (List Ev × LogSt)
  | 0, st, _, secRemain => if secRemain = 0 then some ([], st) else none
  | fuel + 1, st, ba, secRemain =>
    if secRemain = 0 then some ([], st)
    else
      let secFree := SEG_SUM_OFF - st.hotAllocP
      if secFree = 0 then none
      else
        let count := min secRemain secFree
        let sa := sega2sa st.hotSega + st.hotAllocP
        if ¬ sa + count < st.segCnt * SECTORS_PER_SEG then none
        else
          let st₁ := { st with hotRm := updRange st.hotRm st.hotAllocP ba count,
                               hotAllocP := st.hotAllocP + count }
          let boundary : Option (List Ev × LogSt) :=
            if st₁.hotAllocP = SEG_SUM_OFF then
              match segAllocHot st₁ afuel with
              | AllocRes.ok st₂ =>
                some ([Ev.segSumWrite st₁.hotSega, Ev.segAllocEv st₂.hotSega,
                       Ev.cleanCheck], st₂)
              | _ => none
            else some ([], st₁)
          match boundary with
          | none => none
          | some (bEvs, st₂) =>
            let st₃ := { st₂ with fm := updRange st₂.fm ba sa count }
            match writeLoop afuel fuel st₃ (ba + count) (secRemain - count) with
            | none => none
            | some (evs, st₄) =>
              some (Ev.dataWrite sa count :: rmList st.hotAllocP ba count
                      ++ bEvs ++ fmList ba sa count ++ evs, st₄)

/--
_logstor_write(sc, bp, ba, size, &sc->seg_sum_hot): the entry MY_ASSERTs
`ba < max_block_cnt` and `ss_alloc_p < SEG_SUM_OFF`, then the chunk loop.
`afuel` bounds seg_alloc's candidate walk.
-/
def logstorWrite (st : LogSt) (ba size afuel : Nat) : Option (List Ev × LogSt) :=
  if ba < st.maxBlockCnt ∧ st.hotAllocP < SEG_SUM_OFF then
    writeLoop afuel size st ba size
  else none

/--
_logstor_write_one(sc, bp, ba, &sc->seg_sum_hot).  `devOk` is the status
the backing device would report for the cloned data-write bio: the source
fires the bio with g_io_request (bio_done = g_std_done) and never
inspects its outcome, so the parameter is ignored and the function
returns error code 0 unconditionally on every non-assert path.
-/
def logstorWriteOne (st : LogSt) (ba : Nat) (devOk : Bool) (afuel : Nat) :
    Option (Nat × List Ev × LogSt) :=
  if ¬ ba < st.maxBlockCnt then none
  else if ¬ st.hotAllocP < SEG_SUM_OFF then none
  else
    let sa := sega2sa st.hotSega + st.hotAllocP
    if ¬ sa < st.segCnt * SECTORS_PER_SEG then none
    else
      let _ := devOk
      let st₁ := { st with hotRm := updAt st.hotRm st.hotAllocP ba,
                           hotAllocP := st.hotAllocP + 1 }
      let boundary : Option (List Ev × LogSt) :=
        if st₁.hotAllocP = SEG_SUM_OFF then
          match segAllocHot st₁ afuel with
          | AllocRes.ok st₂ =>
            some ([Ev.segSumWrite st₁.hotSega, Ev.segAllocEv st₂.hotSega,
                   Ev.cleanCheck], st₂)
          | _ => none
        else some ([], st₁)
      match boundary with
      | none => none
      | some (bEvs, st₂) =>
        let st₃ := { st₂ with fm := updAt st₂.fm ba sa }
        some (0, Ev.dataWrite sa 1 :: Ev.recRM st.hotAllocP ba :: bEvs
                   ++ [Ev.fwdMap ba sa], st₃)

/-- Event list of an optional write result (empty when the write failed). -/
def evsOf (o : Option (List Ev × LogSt)) : List Ev := (o.map Prod.fst).getD []

/-- Final state of an optional write result, defaulting to the given state. -/
def stOf (o : Option (List Ev × LogSt)) (dflt : LogSt) : LogSt :=
  (o.map Prod.snd).getD dflt

/-- Returned error code of a _logstor_write_one result. -/
def retOf (o : Option (Nat × List Ev × LogSt)) : Option Nat := o.map Prod.fst

/-- Event list of a _logstor_write_one result. -/
def evsOf1 (o : Option (Nat × List Ev × LogSt)) : List Ev :=
  (o.map fun r => r.2.1).getD []

/-- Forward-map value at `b` after a _logstor_write_one result. -/
def fmAfter1 (o : Option (Nat × List Ev × LogSt)) (b : Nat) : Option Nat :=
  o.map fun r => r.2.2.fm b

/--
The per-block ordering discipline of the write path, claim-side: the event
stream parses as a sequence of chunks, each being the data write at
`sega2sa sega + p` for `n` sectors, then the `n` reverse-map records
starting at slot `p`, then (possibly) the segment-boundary triple
seg_sum_write / seg_alloc / clean_check, and only then the `n` forward-map
stores for the same block addresses and sector addresses.
-/
inductive ChunksOk : List Ev → Prop
  | nil : ChunksOk []
  | chunk (sega p ba n g h' : Nat) (boundary rest : List Ev) (hn : 0 < n)
      (hb : boundary = [] ∨ boundary = [Ev.segSumWrite g, Ev.segAllocEv h', Ev.cleanCheck])
      (hr : ChunksOk rest) :
      ChunksOk (Ev.dataWrite (sega2sa sega + p) n :: rmList p ba n
                  ++ boundary ++ fmList ba (sega2sa sega + p) n ++ rest)

/--
logstor_delete: after the alignment and `ba < max_block_cnt` MY_ASSERTs,
stores SECTOR_DELETE into the FD_ACTIVE forward map for each of the
`size` block addresses (`file_write_4byte(sc, FD_ACTIVE, ba + i,
SECTOR_DELETE)`); it issues no segment write.  The emitted events are
exactly the forward-map stores.
-/
def logstorDelete (st : LogSt) (ba size : Nat) : Option (List Ev × LogSt) :=
  if ba < st.maxBlockCnt then
    some ((List.range size).map (fun i => Ev.fwdMap (ba + i) SECTOR_DELETE),
          { st with fm := ((List.range size).foldl
                      (fun g i => updAt g (ba + i) SECTOR_DELETE) st.fm) })
  else none

/-- Final state of a delete result, defaulting to the given state. -/
def stOfD (o : Option (List Ev × LogSt)) (dflt : LogSt) : LogSt :=
  (o.map Prod.snd).getD dflt

/-- Whether an event is a write into a segment (data sector or summary). -/
def isSegWrite : Ev → Bool
  | Ev.dataWrite _ _ => true
  | Ev.segSumWrite _ => true
  | _ => false

/-- Sector payloads, byte-indexed. -/
def SectorData : Type := Nat → Nat

/-- The all-zero sector produced by `memset(bp->bio_data, 0, SECTOR_SIZE)`. -/
def zeroSector : SectorData := fun _ => 0

/--
_logstor_read_one behind logstor_read's `ba < max_block_cnt` MY_ASSERT:
look up `start_sa = file_read_4byte(FD_ACTIVE, ba)`; if it is SECTOR_NULL
or SECTOR_DELETE deliver a zeroed sector, otherwise read sector
`start_sa` from the backing device `dev`.
-/
def logstorReadOne (st : LogSt) (dev : Nat → SectorData) (ba : Nat) :
    Option SectorData :=
  if ba < st.maxBlockCnt then
    let start_sa := st.fm ba
    if start_sa = SECTOR_NULL ∨ start_sa = SECTOR_DELETE then some zeroSector
    else some (dev start_sa)
  else none

/-- An I/O action of _logstor_read: zero-fill a run or issue one backing read. -/
inductive RAction where
  | zero (sa n : Nat)
  | read (sa n : Nat)
deriving DecidableEq

/-- Flushing one run in _logstor_read: zero-fill if its start SA is
SECTOR_NULL or SECTOR_DELETE, else one backing read. -/
def flushRun (s c : Nat) : RAction :=
  if s = SECTOR_NULL ∨ s = SECTOR_DELETE then RAction.zero s c else RAction.read s c

/--
The coalescing loop of _logstor_read over the looked-up sector addresses:
extend the current run while `sa == pre_sa + 1`, otherwise flush the run
and start a new one; the final run is flushed after the loop.
`start` is start_sa, `pre` is pre_sa, `count` the run length so far.
-/
def readLoop (start pre count : Nat) : List Nat → List RAction
  | [] => [flushRun start count]
  | sa :: rest =>
    if sa = pre + 1 then readLoop start sa (count + 1) rest
    else flushRun start count :: readLoop sa sa 1 rest

/--
_logstor_read's I/O actions as a function of the sector addresses looked
up for `ba, ba+1, ...` (the list must be nonempty; the source is called
with size >= 2 and seeds the run with the first lookup).
-/
def readActions : List Nat → List RAction
  | [] => []
  | s :: rest => readLoop s s 1 rest

/-- Start sector address of an action. -/
def raSa : RAction → Nat
  | RAction.zero s _ => s
  | RAction.read s _ => s

/-- Run length of an action. -/
def raN : RAction → Nat
  | RAction.zero _ n => n
  | RAction.read _ n => n

/-- The sector addresses covered by a list of actions, in order. -/
def raCover (acts : List RAction) : List Nat :=
  acts.flatMap fun a => List.range' (raSa a) (raN a)

/-- An action's class agrees with its start SA: backing reads exactly for
runs whose first SA is neither SECTOR_NULL nor SECTOR_DELETE. -/
def raClassOk (a : RAction) : Bool :=
  match a with
  | RAction.zero s _ => s = SECTOR_NULL ∨ s = SECTOR_DELETE
  | RAction.read s _ => ¬ (s = SECTOR_NULL ∨ s = SECTOR_DELETE)

/-- Maximality of the run split: no action starts where its predecessor's
run would continue (its start is not the predecessor's end + 1 position). -/
def raMaximal : List RAction → Bool
  | a :: b :: rest => decide (raSa b ≠ raSa a + raN a) && raMaximal (b :: rest)
  | _ => true

/--
On-disk superblock fields used by superblock_read.  `sig` and `gen` are
the uint32 signature and uint16 generation; the three pointers are the
int32 fields `seg_cnt`, `seg_alloc_p`, `seg_reclaim_p`.
-/
structure SBRec where
  sig : Nat
  gen : Nat
  segCnt : Int
  allocP : Int
  reclaimP : Int
deriving DecidableEq

/-- The superblock_read out-of-range test `seg_alloc_p >= seg_cnt ||
seg_reclaim_p >= seg_cnt`. -/
def sbBad (r : SBRec) : Bool := r.segCnt ≤ r.allocP ∨ r.segCnt ≤ r.reclaimP

/--
The probe loop of superblock_read: starting at sector `i` with the
previous accepted generation `prev`, advance while the sector carries the
LOGS signature and its `sb_gen` equals `(uint16_t)(prev + 1)`; return the
loop's exit index.  `c` is the number of probes left (the loop bound
`i < SECTORS_PER_SEG`).
-/
def probeAux (dev : Nat → SBRec) : Nat → Nat → Nat → Nat
  | 0, i, _ => i
  | c + 1, i, prev =>
    if (dev i).sig ≠ SIG_LOGSTOR then i
    else if (dev i).gen ≠ (prev + 1) % 65536 then i
    else probeAux dev c (i + 1) (dev i).gen

/-- The exit index of superblock_read's probe loop over sectors 1..1023. -/
def probeEnd (dev : Nat → SBRec) : Nat := probeAux dev (SECTORS_PER_SEG - 1) 1 (dev 0).gen

/--
superblock_read: reject (EINVAL) if sector 0 lacks the signature or its
pointers are out of range; then probe sectors 1..SECTORS_PER_SEG-1 for
the contiguous generation chain; select sector `i - 1` where `i` is the
loop exit index; reject if the selected superblock lacks the signature or
its pointers are out of range; otherwise return (sb_sa, superblock).
-/
def superblockRead (dev : Nat → SBRec) : Option (Nat × SBRec) :=
  let r0 := dev 0
  if r0.sig ≠ SIG_LOGSTOR ∨ sbBad r0 then none
  else
    let k := probeEnd dev
    let sel := dev (k - 1)
    if sel.sig ≠ SIG_LOGSTOR ∨ sbBad sel then none
    else some (k - 1, sel)

/--
The claim's reading of superblock_read (claim-side definition, following
the claim's words): select the last sector of the maximal chain starting
at sector 0; fail exactly when sector 0 lacks the signature or the
SELECTED superblock's seg_alloc_p or seg_reclaim_p is not below seg_cnt.
(It imposes no range check on sector 0 itself when the chain moves past it.)
-/
def claimSuperblockRead (dev : Nat → SBRec) : Option (Nat × SBRec) :=
  if (dev 0).sig ≠ SIG_LOGSTOR then none
  else
    let s := probeEnd dev - 1
    if sbBad (dev s) then none else some (s, dev s)

/--
The amended reading: as the claim, but the read also fails when sector
0's own pointers are out of range (the source checks sector 0 before
probing the chain).
-/
def amendedSuperblockRead (dev : Nat → SBRec) : Option (Nat × SBRec) :=
  if (dev 0).sig ≠ SIG_LOGSTOR ∨ sbBad (dev 0) then none
  else
    let s := probeEnd dev - 1
    if sbBad (dev s) then none else some (s, dev s)

/-- Byte size of the fixed part of struct _superblock (sig 4, ver 2, gen 2,
max_block_cnt 4, seg_cnt 4, seg_free_cnt 4, seg_alloc_p 4, seg_reclaim_p 4,
ftab 12). -/
def SB_FIXED_SIZE : Nat := 40

/--
superblock_init(sc, media_size): computes sector_cnt, seg_cnt,
seg_free_cnt = seg_cnt - SEG_DATA_START and
max_block_cnt = (seg_free_cnt * BLOCKS_PER_SEG -
  (sector_cnt / (SECTOR_SIZE/4)) * FD_COUNT) * 0.9, zeroes seg_age and
ftab and sets both pointers to SEG_DATA_START.  The two MY_ASSERTs are
modelled as failure.  The `* 0.9` is computed by C in double precision
and truncated on the uint32 store; for every count below 2^32 that equals
`* 9 / 10` in Nat arithmetic.  The fresh softc is zero-filled (g_malloc
M_ZERO), so both write fronts start with sega 0 and the flat forward map
is all SECTOR_NULL.
-/
def superblockInit (mediaSize : Nat) : Option LogSt :=
  let sectorCnt := mediaSize / SECTOR_SIZE
  let segCnt := sectorCnt / SECTORS_PER_SEG
  if ¬ SB_FIXED_SIZE + segCnt < SECTOR_SIZE then none
  else
    let segFreeCnt := segCnt - SEG_DATA_START
    let overhead := sectorCnt / (SECTOR_SIZE / 4) * FD_COUNT
    if ¬ overhead < segFreeCnt * BLOCKS_PER_SEG then none
    else
      some { maxBlockCnt := (segFreeCnt * BLOCKS_PER_SEG - overhead) * 9 / 10,
             segCnt := segCnt, segFreeCnt := segFreeCnt,
             segAllocP := SEG_DATA_START, segReclaimP := SEG_DATA_START,
             segAge := fun _ => 0,
             hotSega := 0, hotAllocP := 0, hotRm := fun _ => 0,
             coldSega := 0, coldAllocP := 0, coldRm := fun _ => 0,
             fm := fun _ => SECTOR_NULL }

/--
logstor_open on a fresh device: superblock_init (the superblock read
fails on a blank device), then seg_alloc for the cold front and then for
the hot front.
-/
def logstorOpenFresh (mediaSize afuel : Nat) : Option LogSt :=
  match superblockInit mediaSize with
  | none => none
  | some st =>
    match segAllocCold st afuel with
    | AllocRes.ok st' =>
      match segAllocHot st' afuel with
      | AllocRes.ok st'' => some st''
      | _ => none
    | _ => none

/--
The metadata-block byte offset computed by file_access:
`*buf_off = offset & 0xfffu`, the offset of the 4-byte entry inside the
fbuf's SECTOR_SIZE data block.
-/
def fileAccessBufOff (offset : Nat) : Nat := offset &&& 0xfff

/--
The leaf metadata address constructed by file_access from (fd, offset):
`ma.uint32 = META_BASE + (offset >> 12)`, then the bitfield stores
`ma.depth = META_LEAF_DEPTH` (bits 21:20) and `ma.fd = fd` (bits 23:22).
-/
def leafMa (fd offset : Nat) : Nat :=
  let ma := META_BASE + (offset >>> 12)
  let ma := (ma &&& 0xFFCFFFFF) ||| (META_LEAF_DEPTH <<< 20)
  (ma &&& 0xFF3FFFFF) ||| (fd <<< 22)

/--
ma_index_get(ma, depth): the per-level index into an indirect block,
`(ma.uint32 >> 10) & 0x3ff` at depth 0 and `ma.uint32 & 0x3ff` at depth
1; any other depth is MY_PANIC, modelled as `none`.
-/
def maIndexGet (ma depth : Nat) : Option Nat :=
  match depth with
  | 0 => some ((ma >>> 10) &&& 0x3ff)
  | 1 => some (ma &&& 0x3ff)
  | _ => none

/--
seg_live_count: fold over slots `0 <= i < ss_alloc_p` of the loaded
summary.  `metaSa` gives fbuf_ma2sa, `flags` gives the (modified,
accessed) flags of the fbuf fetched by fbuf_get, `fm` gives
file_read_4byte(FD_ACTIVE, ·); `rm` is ss_rm and `sega` the segment
address.
-/
def segLiveCount (metaSa : Nat → Nat) (flags : Nat → Bool × Bool)
    (fm : Nat → Nat) (sega allocP : Nat) (rm : Nat → Nat) : Nat :=
  (List.range allocP).foldl
    (fun acc i =>
      let ba := rm i
      if isMetaAddr ba then
        if metaSa ba = sega2sa sega + i then
          let mo := (flags ba).1
          let ac := (flags ba).2
          if ¬ mo ∧ ¬ ac then acc + 1 else acc
        else acc
      else
        if fm ba = sega2sa sega + i then acc + 1 else acc)
    0

/--
The claim's per-slot liveness predicate: a metadata slot is counted live
exactly when fbuf_ma2sa(ss_rm[i]) equals sega2sa(sega) + i and the cached
fbuf is neither modified nor accessed; a data slot exactly when
file_read_4byte(FD_ACTIVE, ss_rm[i]) equals sega2sa(sega) + i.
-/
def liveSlot (metaSa : Nat → Nat) (flags : Nat → Bool × Bool)
    (fm : Nat → Nat) (sega : Nat) (rm : Nat → Nat) (i : Nat) : Bool :=
  let ba := rm i
  if isMetaAddr ba then
    decide (metaSa ba = sega2sa sega + i) && !(flags ba).1 && !(flags ba).2
  else
    decide (fm ba = sega2sa sega + i)

/--
An fbuf's residency-relevant fields: the `on_cir_queue`, `accessed` and
`modified` flags and the `ref_cnt` of children holding it as parent.
-/
structure FNode where
  onCir : Bool
  refCnt : Nat
  accessed : Bool
  modified : Bool
deriving DecidableEq

/-- A default node for out-of-range lookups. -/
def FNode.dflt : FNode :=
  { onCir := true, refCnt := 0, accessed := false, modified := false }

/--
The fbuf pool's queue structure: nodes indexed by position in `nodes`,
the circular queue as a list (in head order; inserting "before the head"
of the circle appends at the tail of this list), and the two indirect
lists `indirect_head[0]` and `indirect_head[1]` (META_LEAF_DEPTH = 2).
-/
structure FPool where
  nodes : List FNode
  cirQ : List Nat
  indir0 : List Nat
  indir1 : List Nat
deriving DecidableEq

/-- Node lookup. -/
def FPool.node (p : FPool) (i : Nat) : FNode := p.nodes.getD i FNode.dflt

/-- Membership of an fbuf on one of the indirect lists. -/
def memIndir (p : FPool) (i : Nat) : Prop := i ∈ p.indir0 ∨ i ∈ p.indir1

instance (p : FPool) (i : Nat) : Decidable (memIndir p i) := by
  unfold memIndir; infer_instance

/-- Number of queue positions holding fbuf `i` across all three lists. -/
def occCount (p : FPool) (i : Nat) : Nat :=
  p.cirQ.count i + p.indir0.count i + p.indir1.count i

/--
The fbuf residency invariant: every fbuf of the pool sits on exactly one
of the circular queue and the indirect lists, its `on_cir_queue` flag
agrees with where it sits, fbufs on the circular queue have ref_cnt 0 and
fbufs on an indirect list have ref_cnt > 0.
-/
def fbufInv (p : FPool) : Prop :=
  ∀ i, i < p.nodes.length →
    occCount p i = 1 ∧
    ((p.node i).onCir ↔ i ∈ p.cirQ) ∧
    (i ∈ p.cirQ → (p.node i).refCnt = 0) ∧
    (memIndir p i → 0 < (p.node i).refCnt)

instance (p : FPool) : Decidable (fbufInv p) := by
  unfold fbufInv; infer_instance

/--
file_mod_init: all `n` fbufs are linked into the circular queue with
parent NULL, `on_cir_queue = true` and cleared flags (the pool is
g_malloc'ed M_ZERO, so every ref_cnt is 0); both indirect lists start
empty.
-/
def initFPool (n : Nat) : FPool :=
  { nodes := List.replicate n
      { onCir := true, refCnt := 0, accessed := false, modified := false },
    cirQ := List.range n,
    indir0 := [], indir1 := [] }

/--
The promotion step in fbuf_get's walk for the intermediate node `b` at
depth `d`: if the node is on the circular queue, remove it
(fbuf_cir_queue_remove), insert it at the head of indirect_head[d] and
reset its ref_cnt to 0; in either case increment its ref_cnt (the
pre-emptive reference that protects it from fbuf_read_and_hash's
eviction).
-/
def promoteStep (p : FPool) (b d : Nat) : FPool :=
  let nb := p.node b
  let p' :=
    if nb.onCir then
      { nodes := p.nodes.set b { nb with onCir := false, refCnt := 0 },
        cirQ := p.cirQ.erase b,
        indir0 := if d = 0 then b :: p.indir0 else p.indir0,
        indir1 := if d = 0 then p.indir1 else b :: p.indir1 }
    else p
  let nb' := p'.node b
  { p' with nodes := p'.nodes.set b { nb' with refCnt := nb'.refCnt + 1 } }

/--
The parent-detach step of fbuf_alloc for the evicted buffer's parent
`pb` (which the source asserts is not on the circular queue): decrement
pb's ref_cnt; if it reaches 0, remove pb from its indirect list and
insert it into the circular queue (before the head, i.e. at the tail)
with `accessed = false` so the second-chance scan reclaims it promptly.
-/
def demoteParent (p : FPool) (pb : Nat) : FPool :=
  let n := p.node pb
  let r := n.refCnt - 1
  if r = 0 then
    { nodes := p.nodes.set pb { n with refCnt := 0, onCir := true, accessed := false },
      cirQ := p.cirQ ++ [pb],
      indir0 := p.indir0.erase pb,
      indir1 := p.indir1.erase pb }
  else
    { p with nodes := p.nodes.set pb { n with refCnt := r } }

/--
A concrete in-memory state matching a freshly opened 16 MiB (4-segment)
device whose allocation pointer has advanced to the hot front's segment:
hot sega 2, cold sega 1, two free segments, empty forward map.
-/
def stDemo : LogSt :=
  { maxBlockCnt := 2751, segCnt := 4, segFreeCnt := 2,
    segAllocP := 2, segReclaimP := 1,
    segAge := fun _ => 0,
    hotSega := 2, hotAllocP := 0, hotRm := fun _ => 0,
    coldSega := 1, coldAllocP := 0, coldRm := fun _ => 0,
    fm := fun _ => SECTOR_NULL }

/-- stDemo with the allocation pointer past the hot front, so seg_alloc
succeeds (used where a segment boundary must be crossed). -/
def stDemoW : LogSt := { stDemo with segAllocP := 3 }

/--
C10 counterexample: on the 16 MiB backing device (4 segments), open
(superblock_init followed by the cold and hot seg_alloc) leaves
seg_free_cnt = 1, not 2 as claimed: superblock_init starts the count at
seg_cnt - SEG_DATA_START = 3 and each of the two allocations decrements it.
-/
theorem logstor_open_freecnt_cex :
    (logstorOpenFresh 0x1000000 10).map (fun s => s.segFreeCnt) = some 1 ∧
    ¬ (logstorOpenFresh 0x1000000 10).map (fun s => s.segFreeCnt) = some 2 := by
  exact ⟨rfl, by decide⟩

/--
C10 amended: after open on the 16 MiB device (4 segments),
max_block_cnt = 2751 > 0 and seg_free_cnt = 1 (three usable segments
minus the cold and the hot allocation).
-/
theorem logstor_open_16mib :
    (logstorOpenFresh 0x1000000 10).map (fun s => (s.maxBlockCnt, s.segFreeCnt))
        = some (2751, 1) ∧
    0 < 2751 := by
  exact ⟨rfl, by decide⟩

/--
C5 counterexample: with SECTOR_SIZE = 512 and 128 entries per block, both
bounds of the claim fail on in-range block addresses.  On the 16 MiB
device (max_block_cnt = 2751), ba = 512 gives file_access byte offset
(512 << 2) & 0xfff = 2048, not below 512; on a 1 GiB device
(max_block_cnt = 234087), ba = 131072 gives a leaf metadata address whose
depth-1 index from ma_index_get is 128, not below 128.
-/
theorem file_access_bounds_cex :
    ((superblockInit 0x1000000).map (fun s => s.maxBlockCnt) = some 2751 ∧
      512 < 2751 ∧
      fileAccessBufOff (512 <<< 2) = 2048 ∧ ¬ fileAccessBufOff (512 <<< 2) < 512) ∧
    ((superblockInit 0x40000000).map (fun s => s.maxBlockCnt) = some 234087 ∧
      131072 < 234087 ∧
      maIndexGet (leafMa 1 (131072 <<< 2)) 1 = some 128 ∧ ¬ (128 : Nat) < 128) := by
  exact ⟨⟨rfl, by decide, by decide, by decide⟩, ⟨rfl, by decide, by decide, by decide⟩⟩

/--
C5 amended: every forward-map resolution stays inside one metadata block
of SECTOR_SIZE / 4 = 1024 four-byte entries (SECTOR_SIZE = 4096): the
byte offset file_access computes is below SECTOR_SIZE and every per-level
index produced by ma_index_get is below 1024.
-/
theorem file_access_bounds :
    (∀ offset, fileAccessBufOff offset < SECTOR_SIZE) ∧
    (∀ ma d i, maIndexGet ma d = some i → i < SECTOR_SIZE / 4) := by
  constructor
  · intro offset
    have h : fileAccessBufOff offset ≤ 0xfff := Nat.and_le_right
    exact lt_of_le_of_lt h (by norm_num [SECTOR_SIZE])
  · intro ma d i h
    match d, h with
    | 0, h =>
      have hi : i = (ma >>> 10) &&& 0x3ff := by
        simpa [maIndexGet] using h.symm
      have : i ≤ 0x3ff := hi ▸ Nat.and_le_right
      exact lt_of_le_of_lt this (by norm_num [SECTOR_SIZE])
    | 1, h =>
      have hi : i = ma &&& 0x3ff := by
        simpa [maIndexGet] using h.symm
      have : i ≤ 0x3ff := hi ▸ Nat.and_le_right
      exact lt_of_le_of_lt this (by norm_num [SECTOR_SIZE])

/-- C5 amended witness at a concrete metadata address. -/
theorem file_access_bounds_witness :
    maIndexGet 0x3ff 1 = some 0x3ff ∧ (0x3ff : Nat) < SECTOR_SIZE / 4 := by
  exact ⟨by decide, file_access_bounds.2 0x3ff 1 0x3ff (by decide)⟩

/-- The `seg_alloc_p` post-increment with wrap to SEG_DATA_START performed
by one iteration of seg_alloc's candidate walk. -/
def segAllocAdvance (st : LogSt) : LogSt :=
  { st with segAllocP :=
      if st.segAllocP + 1 = st.segCnt then SEG_DATA_START else st.segAllocP + 1 }

/-- A successful candidate walk returns a sega different from both write
fronts with seg_age 0, and changes nothing but `seg_alloc_p`. -/
theorem segAllocLoop_ok (cold hot : Nat) :
    ∀ fuel st sega st', segAllocLoop cold hot st fuel = Sum.inl (some (sega, st')) →
      sega ≠ hot ∧ sega ≠ cold ∧ st'.segAge sega = 0 ∧
      st'.segAge = st.segAge ∧ st'.hotSega = st.hotSega ∧ st'.coldSega = st.coldSega ∧
      st'.segFreeCnt = st.segFreeCnt ∧ st'.hotAllocP = st.hotAllocP ∧
      st'.segCnt = st.segCnt := by
  intro fuel
  induction fuel with
  | zero => intro st sega st' h; simp [segAllocLoop] at h
  | succ n ih =>
    intro st sega st' h
    simp only [segAllocLoop] at h
    repeat' split at h
    all_goals
      first
      | exact Sum.noConfusion h
      | simpa using ih _ _ _ h
      | (simp only [Sum.inl.injEq, Option.some.injEq, Prod.mk.injEq] at h
         obtain ⟨hsega, hst⟩ := h
         subst hsega
         subst hst
         refine ⟨?_, ?_, ?_, rfl, rfl, rfl, rfl, rfl, rfl⟩ <;> simp_all)

/-- Inversion of a successful seg_alloc on the hot front. -/
theorem segAllocHot_ok (st : LogSt) (fuel : Nat) (stf : LogSt)
    (h : segAllocHot st fuel = AllocRes.ok stf) :
    ∃ sega st', segAllocLoop st.coldSega st.hotSega st fuel = Sum.inl (some (sega, st')) ∧
      stf = { st' with hotSega := sega, hotAllocP := 0,
                       segFreeCnt := st'.segFreeCnt - 1 } ∧
      0 < st'.segFreeCnt - 1 ∧ st'.segFreeCnt - 1 < st'.segCnt := by
  unfold segAllocHot at h
  cases hl : segAllocLoop st.coldSega st.hotSega st fuel with
  | inr u =>
    rw [hl] at h
    cases u
    exact AllocRes.noConfusion h
  | inl o =>
    cases o with
    | none =>
      rw [hl] at h
      exact AllocRes.noConfusion h
    | some r =>
      obtain ⟨sega, st'⟩ := r
      rw [hl] at h
      dsimp only at h
      refine ⟨sega, st', rfl, ?_⟩
      split at h
      · rename_i hg
        exact ⟨(AllocRes.ok.inj h).symm, hg.1, hg.2⟩
      · exact AllocRes.noConfusion h


/--
C4 counterexample: in a state whose next candidate (seg_alloc_p = 2)
equals the hot front's sega, has age 0 and with free segments available,
the claim predicts the allocator skips the hot candidate and succeeds on
the next one; seg_alloc instead hits MY_ASSERT(sega != sega_hot) — the
hot front is asserted against, never skipped, and there is no NoSpace
error path (exhaustion merely never leaves the `again:` loop).
-/
theorem seg_alloc_skip_hot_cex :
    stDemo.segAllocP = stDemo.hotSega ∧
    stDemo.segAge stDemo.segAllocP = 0 ∧
    0 < stDemo.segFreeCnt ∧
    segAllocHot stDemo 10 = AllocRes.assertFail ∧
    allocOk (segAllocHot stDemoW 10) = true := by
  exact ⟨rfl, rfl, by decide, rfl, rfl⟩

/--
C4 amended: on every seg_alloc call, a successful walk binds a sega that
differs from the previous hot sega and from the cold front's sega and has
seg_age 0, resets the summary's ss_alloc_p to 0 and decrements
seg_free_cnt (with the 0 < seg_free_cnt < seg_cnt assertion); candidates
equal to the cold sega or with nonzero age are skipped by advancing
seg_alloc_p circularly; a candidate equal to the hot sega is an assertion
failure, not a skip; and there is no NoSpace failure — an exhausted pool
only exhausts the walk's fuel (the C loop never terminates).
-/
theorem seg_alloc_amended :
    (∀ st fuel, allocOk (segAllocHot st fuel) = true →
      (allocSt (segAllocHot st fuel) st).hotSega ≠ st.hotSega ∧
      (allocSt (segAllocHot st fuel) st).hotSega ≠ st.coldSega ∧
      st.segAge ((allocSt (segAllocHot st fuel) st).hotSega) = 0 ∧
      (allocSt (segAllocHot st fuel) st).hotAllocP = 0 ∧
      (allocSt (segAllocHot st fuel) st).segFreeCnt = st.segFreeCnt - 1 ∧
      0 < (allocSt (segAllocHot st fuel) st).segFreeCnt ∧
      (allocSt (segAllocHot st fuel) st).segFreeCnt
        < (allocSt (segAllocHot st fuel) st).segCnt) ∧
    (∀ st fuel, st.segAllocP = st.hotSega →
      segAllocHot st (fuel + 1) = AllocRes.assertFail) ∧
    (∀ st fuel,
      (if st.segAllocP + 1 = st.segCnt then SEG_DATA_START else st.segAllocP + 1)
          < st.segCnt →
      (if st.segAllocP + 1 = st.segCnt then SEG_DATA_START else st.segAllocP + 1) + 1
          ≠ st.segReclaimP →
      st.segAllocP ≠ st.hotSega →
      (st.segAllocP = st.coldSega ∨ st.segAge st.segAllocP ≠ 0) →
      segAllocHot st (fuel + 1) = segAllocHot (segAllocAdvance st) fuel) ∧
    (∀ st, segAllocHot st 0 = AllocRes.diverge) := by
  refine ⟨?_, ?_, ?_, fun st => rfl⟩
  · intro st fuel hok
    have hex : ∃ stf, segAllocHot st fuel = AllocRes.ok stf := by
      cases hr : segAllocHot st fuel with
      | ok stf => exact ⟨stf, rfl⟩
      | assertFail => rw [hr] at hok; simp [allocOk] at hok
      | diverge => rw [hr] at hok; simp [allocOk] at hok
    obtain ⟨stf, heq⟩ := hex
    obtain ⟨sega, st', hl, hrec, hg1, hg2⟩ := segAllocHot_ok st fuel stf heq
    obtain ⟨h1, h2, h3, h4, h5, h6, h7, h8, h9⟩ :=
      segAllocLoop_ok st.coldSega st.hotSega fuel st sega st' hl
    rw [heq]
    subst hrec
    simp only [allocSt]
    refine ⟨h1, h2, ?_, ?_, ?_, ?_, ?_⟩
    · show st.segAge sega = 0
      rw [← h4]
      exact h3
    · trivial
    · show st'.segFreeCnt - 1 = st.segFreeCnt - 1
      rw [h7]
    · exact hg1
    · show st'.segFreeCnt - 1 < st'.segCnt
      exact hg2
  · intro st fuel hhot
    have hloop : segAllocLoop st.coldSega st.hotSega st (fuel + 1) = Sum.inr () := by
      simp [segAllocLoop, hhot]
    unfold segAllocHot
    rw [hloop]
  · intro st fuel h1 h2 h3 h4
    have hstep : segAllocLoop st.coldSega st.hotSega st (fuel + 1)
        = segAllocLoop st.coldSega st.hotSega (segAllocAdvance st) fuel := by
      simp only [segAllocLoop]
      rw [if_neg (not_not_intro h1), if_neg h2, if_neg h3]
      by_cases hcold : st.segAllocP = st.coldSega
      · rw [if_pos hcold]
        rfl
      · rw [if_neg hcold, if_pos (h4.resolve_left hcold)]
        rfl
    unfold segAllocHot
    rw [hstep]
    rfl

/-- C4 amended witness: a successful allocation at a concrete state. -/
theorem seg_alloc_amended_witness :
    allocOk (segAllocHot stDemoW 10) = true ∧
    (allocSt (segAllocHot stDemoW 10) stDemoW).hotAllocP = 0 := by
  exact ⟨rfl, (seg_alloc_amended.1 stDemoW 10 rfl).2.2.2.1⟩

/--
C9 counterexample: starting from stDemo (empty forward map), a
_logstor_write_one whose backing-device data write fails (devOk = false)
still returns error code 0 and still installs the forward-map entry
fm[0] = 2048: the source fires the data bio with g_io_request and never
inspects its status, so an Io failure neither fails the request nor
leaves the forward map unchanged.
-/
theorem write_one_io_cex :
    stDemo.fm 0 = SECTOR_NULL ∧
    retOf (logstorWriteOne stDemo 0 false 10) = some 0 ∧
    fmAfter1 (logstorWriteOne stDemo 0 false 10) 0 = some 2048 := by
  exact ⟨rfl, rfl, rfl⟩

/--
C9 amended: the result of _logstor_write_one is independent of the
backing device's reported status for the data write, and on every
completed path it returns 0 and has installed fm[ba] =
sega2sa(hot.sega) + ss_alloc_p; the only true deferral is the issuing
order of claim C1 — on an Io error nothing is rolled back and the
request does not fail.
-/
theorem write_one_io_ignored :
    ∀ st ba afuel d₁ d₂,
      logstorWriteOne st ba d₁ afuel = logstorWriteOne st ba d₂ afuel ∧
      (retOf (logstorWriteOne st ba d₁ afuel) = none ∨
        retOf (logstorWriteOne st ba d₁ afuel) = some 0) ∧
      (fmAfter1 (logstorWriteOne st ba d₁ afuel) ba = none ∨
        fmAfter1 (logstorWriteOne st ba d₁ afuel) ba
          = some (sega2sa st.hotSega + st.hotAllocP)) := by
  intro st ba afuel d₁ d₂
  refine ⟨rfl, ?_⟩
  by_cases h1 : ba < st.maxBlockCnt
  case neg => simp [logstorWriteOne, h1, retOf, fmAfter1]
  by_cases h2 : st.hotAllocP < SEG_SUM_OFF
  case neg => simp [logstorWriteOne, h1, h2, retOf, fmAfter1]
  by_cases h3 : sega2sa st.hotSega + st.hotAllocP < st.segCnt * SECTORS_PER_SEG
  case neg => simp [logstorWriteOne, h1, h2, h3, retOf, fmAfter1]
  simp only [logstorWriteOne, h1, h2, h3, not_true_eq_false, if_false, ite_false,
    not_false_eq_true, ite_true]
  split
  · simp [retOf, fmAfter1]
  · simp [retOf, fmAfter1, updAt]

/-- Value of a constant-valued run of array stores at an in-range key. -/
theorem foldl_updAt_const (v : Nat) :
    ∀ (n : Nat) (f : Nat → Nat) (k j : Nat), j < n →
      ((List.range n).foldl (fun g i => updAt g (k + i) v) f) (k + j) = v := by
  intro n
  induction n with
  | zero => intro f k j hj; omega
  | succ m ih =>
    intro f k j hj
    rw [List.range_succ, List.foldl_append]
    simp only [List.foldl_cons, List.foldl_nil]
    by_cases hjm : j = m
    · subst hjm
      simp [updAt]
    · have : j < m := by omega
      rw [updAt]
      rw [if_neg (by omega)]
      exact ih _ k j this

/--
C2: for every ba and count n (n >= 1, the loop granularity of a sector
request) with ba + n <= max_block_cnt, logstor_delete(ba, n) completes
its MY_ASSERT, stores SECTOR_DELETE in the FD_ACTIVE forward map for each
of the n block addresses, emits no segment write (neither a data-sector
nor a summary write), and a subsequent _logstor_read_one of any of those
block addresses returns the all-zero sector.
-/
theorem logstor_delete_reads_zero :
    ∀ (st : LogSt) (dev : Nat → SectorData) (ba n j : Nat),
      0 < n → j < n → ba + n ≤ st.maxBlockCnt →
      (logstorDelete st ba n).isSome = true ∧
      (stOfD (logstorDelete st ba n) st).fm (ba + j) = SECTOR_DELETE ∧
      ((evsOf (logstorDelete st ba n)).all (fun e => !isSegWrite e)) = true ∧
      logstorReadOne (stOfD (logstorDelete st ba n) st) dev (ba + j)
        = some zeroSector := by
  intro st dev ba n j hn hj hmax
  have hba : ba < st.maxBlockCnt := by omega
  have hfm : (stOfD (logstorDelete st ba n) st).fm (ba + j) = SECTOR_DELETE := by
    simp only [logstorDelete, if_pos hba, stOfD, Option.map_some, Option.getD_some]
    exact foldl_updAt_const SECTOR_DELETE n st.fm ba j hj
  refine ⟨by simp [logstorDelete, hba], hfm, ?_, ?_⟩
  · simp only [logstorDelete, if_pos hba, evsOf, Option.map_some, Option.getD_some]
    simp [List.all_eq_true, isSegWrite]
  · have hmax' : (stOfD (logstorDelete st ba n) st).maxBlockCnt = st.maxBlockCnt := by
      simp [logstorDelete, hba, stOfD]
    rw [logstorReadOne, hfm, hmax']
    rw [if_pos (by omega)]
    simp [SECTOR_DELETE]

/-- C2 witness: delete of 3 blocks at ba 5 on the concrete opened state. -/
theorem logstor_delete_reads_zero_witness :
    0 < 3 ∧ 1 < 3 ∧ 5 + 3 ≤ stDemo.maxBlockCnt ∧
    (stOfD (logstorDelete stDemo 5 3) stDemo).fm (5 + 1) = SECTOR_DELETE ∧
    logstorReadOne (stOfD (logstorDelete stDemo 5 3) stDemo)
      (fun _ => zeroSector) (5 + 1) = some zeroSector := by
  have h := logstor_delete_reads_zero stDemo (fun _ => zeroSector) 5 3 1
    (by decide) (by decide) (by decide)
  exact ⟨by decide, by decide, by decide, h.2.1, h.2.2.2⟩

/-- A conditional-increment fold counts the satisfying elements. -/
theorem foldl_count (q : Nat → Bool) :
    ∀ (l : List Nat) (acc : Nat),
      l.foldl (fun a i => if q i then a + 1 else a) acc = acc + l.countP q := by
  intro l
  induction l with
  | nil => intro acc; simp
  | cons x xs ih =>
    intro acc
    rw [List.foldl_cons, List.countP_cons]
    by_cases hx : q x
    · rw [if_pos hx, ih, if_pos hx]
      omega
    · rw [if_neg hx, ih, if_neg hx]
      omega

/--
C7: seg_live_count counts slot i of the loaded summary as live exactly
when the claim's per-slot condition holds: for a metadata address,
fbuf_ma2sa(ss_rm[i]) = sega2sa(sega) + i with the cached fbuf neither
modified nor accessed; otherwise file_read_4byte(FD_ACTIVE, ss_rm[i]) =
sega2sa(sega) + i.
-/
theorem seg_live_count_spec :
    ∀ metaSa flags fm sega allocP rm,
      segLiveCount metaSa flags fm sega allocP rm
        = (List.range allocP).countP (liveSlot metaSa flags fm sega rm) := by
  intro metaSa flags fm sega allocP rm
  unfold segLiveCount
  rw [List.foldl_ext _ (fun a i =>
        if liveSlot metaSa flags fm sega rm i then a + 1 else a) 0 ?_]
  · rw [foldl_count]
    omega
  · intro a i _
    simp only [liveSlot]
    by_cases hm : isMetaAddr (rm i)
    · simp only [if_pos hm]
      by_cases hsa : metaSa (rm i) = sega2sa sega + i
      · by_cases hmo : (flags (rm i)).1 <;> by_cases hac : (flags (rm i)).2 <;>
          simp [hsa, hmo, hac]
      · simp [hsa]
    · simp only [if_neg hm]
      by_cases hsa : fm (rm i) = sega2sa sega + i <;> simp [hsa]

/-- A concrete superblock area for C3: sector 0 carries the signature and
a generation chain into sector 1, but sector 0's own seg_alloc_p equals
its seg_cnt (out of range) while sector 1's pointers are in range. -/
def devCex : Nat → SBRec := fun i =>
  if i = 0 then { sig := SIG_LOGSTOR, gen := 7, segCnt := 4, allocP := 4, reclaimP := 1 }
  else if i = 1 then { sig := SIG_LOGSTOR, gen := 8, segCnt := 4, allocP := 1, reclaimP := 1 }
  else { sig := 0, gen := 0, segCnt := 0, allocP := 0, reclaimP := 0 }

/--
C3 counterexample: on devCex the claim selects sector 1 (the last sector
of the generation chain, whose pointers are in range) and succeeds, but
superblock_read fails with EINVAL because it also range-checks sector 0's
own pointers before probing the chain.
-/
theorem superblock_read_claim_cex :
    superblockRead devCex = none ∧
    claimSuperblockRead devCex
      = some (1, { sig := SIG_LOGSTOR, gen := 8, segCnt := 4,
                   allocP := 1, reclaimP := 1 }) := by
  exact ⟨by decide, by decide⟩

/-- The probe loop either stays at its start index or stops just past a
sector carrying the LOGS signature. -/
theorem probeAux_sel (dev : Nat → SBRec) :
    ∀ (c i prev : Nat), probeAux dev c i prev = i ∨
      ((dev (probeAux dev c i prev - 1)).sig = SIG_LOGSTOR ∧
        i ≤ probeAux dev c i prev - 1) := by
  intro c
  induction c with
  | zero => intro i prev; left; rfl
  | succ m ih =>
    intro i prev
    simp only [probeAux]
    split
    · left; rfl
    · split
      · left; rfl
      · rename_i hsig hgen
        rcases ih (i + 1) (dev i).gen with h | ⟨hs, hi⟩
        · right
          rw [h]
          simp only [Nat.add_sub_cancel]
          exact ⟨by simpa using hsig, Nat.le_refl i⟩
        · right
          exact ⟨hs, by omega⟩

/-- If sector 0 carries the signature, so does the selected sector. -/
theorem probeEnd_sig (dev : Nat → SBRec) (h0 : (dev 0).sig = SIG_LOGSTOR) :
    (dev (probeEnd dev - 1)).sig = SIG_LOGSTOR := by
  unfold probeEnd
  rcases probeAux_sel dev (SECTORS_PER_SEG - 1) 1 (dev 0).gen with h | ⟨hs, _⟩
  · rw [h]
    simpa using h0
  · exact hs

/--
C3 amended: superblock_read probes sectors 0..SECTORS_PER_SEG-1 in order,
selects the last sector of the maximal chain from sector 0 in which every
sector carries the LOGS signature and each next sb_gen is the previous
plus 1 modulo 2^16, and fails exactly when sector 0 lacks the signature,
or sector 0's seg_alloc_p or seg_reclaim_p is not below its seg_cnt, or
the selected superblock's pointers are not below its seg_cnt.
-/
theorem superblock_read_amended :
    ∀ dev, superblockRead dev = amendedSuperblockRead dev := by
  intro dev
  unfold superblockRead amendedSuperblockRead
  by_cases h0 : (dev 0).sig ≠ SIG_LOGSTOR ∨ sbBad (dev 0) = true
  · rw [if_pos h0, if_pos h0]
  · rw [if_neg h0, if_neg h0]
    push_neg at h0
    have hsig := probeEnd_sig dev h0.1
    by_cases hb : sbBad (dev (probeEnd dev - 1)) = true
    · rw [if_pos (Or.inr hb), if_pos hb]
    · rw [if_neg ?_, if_neg hb]
      intro hc
      rcases hc with hc | hc
      · exact hc hsig
      · exact hb hc

/--
C6 counterexample: for a two-block request whose looked-up sector
addresses are [1, 2], _logstor_read coalesces them (2 = 1 + 1) and issues
ONE backing read whose run covers sectors [1, 2] — although the run's
right endpoint 2 is SECTOR_DELETE.  The source classifies a run by its
start SA only, so the claim's "neither endpoint is SECTOR_NULL or
SECTOR_DELETE" condition for dispatching a backing read is false.
-/
theorem read_coalesce_endpoint_cex :
    readActions [1, 2] = [RAction.read 1 2] ∧
    raCover (readActions [1, 2]) = [1, SECTOR_DELETE] := by
  exact ⟨by decide, by decide⟩

/-- flushRun keeps the run's start sector address. -/
theorem flushRun_sa (s c : Nat) : raSa (flushRun s c) = s := by
  unfold flushRun
  split <;> rfl

/-- flushRun keeps the run's length. -/
theorem flushRun_n (s c : Nat) : raN (flushRun s c) = c := by
  unfold flushRun
  split <;> rfl

/-- The coalescing loop's actions cover exactly the pending run followed
by the remaining sector addresses, in order. -/
theorem readLoop_cover :
    ∀ (l : List Nat) (s c : Nat), 0 < c →
      raCover (readLoop s (s + c - 1) c l) = List.range' s c ++ l := by
  intro l
  induction l with
  | nil =>
    intro s c hc
    simp [readLoop, raCover, flushRun_sa, flushRun_n]
  | cons sa rest ih =>
    intro s c hc
    rw [readLoop]
    by_cases h : sa = s + c - 1 + 1
    · rw [if_pos h]
      have hsa : sa = s + (c + 1) - 1 := by omega
      rw [show readLoop s sa (c + 1) rest = readLoop s (s + (c + 1) - 1) (c + 1) rest by
            rw [← hsa]]
      rw [ih s (c + 1) (by omega)]
      rw [List.range'_1_concat]
      simp only [List.append_assoc, List.singleton_append]
      have : s + c = sa := by omega
      rw [this]
    · rw [if_neg h]
      have hco : raCover (flushRun s c :: readLoop sa sa 1 rest)
          = List.range' s c ++ raCover (readLoop sa sa 1 rest) := by
        simp [raCover, flushRun_sa, flushRun_n]
      rw [hco]
      rw [show readLoop sa sa 1 rest = readLoop sa (sa + 1 - 1) 1 rest by norm_num]
      rw [ih sa 1 (by omega)]
      simp

/-- Every action the coalescing loop emits is classified by its start SA. -/
theorem readLoop_classOk :
    ∀ (l : List Nat) (s pre c : Nat), (readLoop s pre c l).all raClassOk = true := by
  intro l
  induction l with
  | nil =>
    intro s pre c
    simp only [readLoop, List.all_cons, List.all_nil, Bool.and_true]
    unfold flushRun
    split <;> simp [raClassOk, *]
  | cons sa rest ih =>
    intro s pre c
    rw [readLoop]
    by_cases h : sa = pre + 1
    · rw [if_pos h]
      exact ih s sa (c + 1)
    · rw [if_neg h]
      rw [List.all_cons]
      refine Bool.and_eq_true_iff.mpr ⟨?_, ih sa sa 1⟩
      unfold flushRun
      split <;> simp [raClassOk, *]

/-- The first action the coalescing loop emits starts at the pending
run's start address. -/
theorem readLoop_head :
    ∀ (l : List Nat) (s pre c : Nat),
      ∃ a rest', readLoop s pre c l = a :: rest' ∧ raSa a = s := by
  intro l
  induction l with
  | nil =>
    intro s pre c
    exact ⟨flushRun s c, [], rfl, flushRun_sa s c⟩
  | cons sa rest ih =>
    intro s pre c
    rw [readLoop]
    by_cases h : sa = pre + 1
    · rw [if_pos h]
      exact ih s sa (c + 1)
    · rw [if_neg h]
      exact ⟨flushRun s c, readLoop sa sa 1 rest, rfl, flushRun_sa s c⟩

/-- No action the coalescing loop emits starts where its predecessor's
run continues (the split is maximal). -/
theorem readLoop_maximal :
    ∀ (l : List Nat) (s c : Nat), 0 < c →
      raMaximal (readLoop s (s + c - 1) c l) = true := by
  intro l
  induction l with
  | nil =>
    intro s c hc
    simp [readLoop, raMaximal]
  | cons sa rest ih =>
    intro s c hc
    rw [readLoop]
    by_cases h : sa = s + c - 1 + 1
    · rw [if_pos h]
      have hsa : sa = s + (c + 1) - 1 := by omega
      rw [show readLoop s sa (c + 1) rest = readLoop s (s + (c + 1) - 1) (c + 1) rest by
            rw [← hsa]]
      exact ih s (c + 1) (by omega)
    · rw [if_neg h]
      obtain ⟨a, rest', heq, hsa⟩ := readLoop_head rest sa sa 1
      rw [heq]
      have hmax : raMaximal (a :: rest') = true := by
        rw [← heq]
        rw [show readLoop sa sa 1 rest = readLoop sa (sa + 1 - 1) 1 rest by norm_num]
        exact ih sa 1 (by omega)
      unfold raMaximal
      rw [hmax]
      simp only [Bool.and_true, decide_eq_true_eq]
      rw [hsa, flushRun_sa, flushRun_n]
      omega

/--
C6 amended: the runs of _logstor_read partition the looked-up sector
addresses into maximal strictly-consecutive chains (consecutive block
addresses share a run exactly when sa[i+1] = sa[i] + 1), and a run is
answered by zero-filling exactly when its FIRST sector address is
SECTOR_NULL or SECTOR_DELETE; otherwise it is dispatched as one backing
read (the non-start sectors of the run are not examined).
-/
theorem read_coalesce_amended :
    ∀ (s : Nat) (sas : List Nat),
      raCover (readActions (s :: sas)) = s :: sas ∧
      (readActions (s :: sas)).all raClassOk = true ∧
      raMaximal (readActions (s :: sas)) = true := by
  intro s sas
  refine ⟨?_, readLoop_classOk sas s s 1, ?_⟩
  · have := readLoop_cover sas s 1 (by omega)
    simpa [readActions] using this
  · have := readLoop_maximal sas s 1 (by omega)
    simpa [readActions] using this

/-- Every successful run of the _logstor_write chunk loop emits a
ChunksOk-shaped event stream. -/
theorem writeLoop_chunks (afuel : Nat) :
    ∀ (fuel : Nat) (st : LogSt) (ba secRemain : Nat) (evs : List Ev) (stf : LogSt),
      writeLoop afuel fuel st ba secRemain = some (evs, stf) → ChunksOk evs := by
  intro fuel
  induction fuel with
  | zero =>
    intro st ba secRemain evs stf h
    rw [writeLoop] at h
    split at h
    · obtain ⟨he, _⟩ := Prod.mk.injEq _ _ _ _ ▸ Option.some.inj h
      exact he ▸ ChunksOk.nil
    · exact Option.noConfusion h
  | succ n ih =>
    intro st ba secRemain evs stf h
    rw [writeLoop] at h
    dsimp only at h
    split at h
    · obtain ⟨he, _⟩ := Prod.mk.injEq _ _ _ _ ▸ Option.some.inj h
      exact he ▸ ChunksOk.nil
    · rename_i hsr
      split at h
      · exact Option.noConfusion h
      · rename_i hsf
        split at h
        · exact Option.noConfusion h
        · rename_i hbnd
          have hcnt : 0 < min secRemain (SEG_SUM_OFF - st.hotAllocP) :=
            lt_min (Nat.pos_of_ne_zero hsr) (Nat.pos_of_ne_zero hsf)
          split at h
          · exact Option.noConfusion h
          · rename_i bres bEvs st₂ hbres
            split at h
            · exact Option.noConfusion h
            · rename_i wres evs' st₄ hrec
              obtain ⟨he, _⟩ := Prod.mk.injEq _ _ _ _ ▸ Option.some.inj h
              subst he
              have hrest : ChunksOk evs' := ih _ _ _ _ _ hrec
              -- identify bEvs from hbres
              split at hbres
              · -- boundary taken: match segAllocHot
                split at hbres
                · rename_i st₃ halloc
                  obtain ⟨hb1, _⟩ := Prod.mk.injEq _ _ _ _ ▸ Option.some.inj hbres
                  exact hb1 ▸ ChunksOk.chunk st.hotSega st.hotAllocP ba
                    (min secRemain (SEG_SUM_OFF - st.hotAllocP))
                    (st.hotSega) (st₃.hotSega) _ evs' hcnt
                    (Or.inr rfl) hrest
                · exact Option.noConfusion hbres
              · obtain ⟨hb1, _⟩ := Prod.mk.injEq _ _ _ _ ▸ Option.some.inj hbres
                exact hb1 ▸ ChunksOk.chunk st.hotSega st.hotAllocP ba
                  (min secRemain (SEG_SUM_OFF - st.hotAllocP))
                  0 0 _ evs' hcnt (Or.inl rfl) hrest

/-- Inversion of a successful _logstor_write_one: its events are one
chunk of size one, with an optional boundary triple. -/
theorem writeOne_shape (st : LogSt) (ba : Nat) (devOk : Bool) (afuel : Nat)
    (r : Nat × List Ev × LogSt) (h : logstorWriteOne st ba devOk afuel = some r) :
    ∃ bEvs st₃,
      r = (0, Ev.dataWrite (sega2sa st.hotSega + st.hotAllocP) 1
              :: Ev.recRM st.hotAllocP ba
              :: bEvs ++ [Ev.fwdMap ba (sega2sa st.hotSega + st.hotAllocP)], st₃) ∧
      (bEvs = [] ∨ ∃ g h', bEvs = [Ev.segSumWrite g, Ev.segAllocEv h', Ev.cleanCheck]) := by
  unfold logstorWriteOne at h
  split at h
  · exact Option.noConfusion h
  · split at h
    · exact Option.noConfusion h
    · dsimp only at h
      split at h
      · exact Option.noConfusion h
      · split at h
        · exact Option.noConfusion h
        · rename_i bres bEvs st₂ hbres
          have hr := (Option.some.inj h).symm
          split at hbres
          · split at hbres
            · rename_i stA halloc
              obtain ⟨hbe1, hbe2⟩ := Prod.mk.injEq _ _ _ _ ▸ Option.some.inj hbres
              subst hbe1
              exact ⟨_, _, hr, Or.inr ⟨_, _, rfl⟩⟩
            · exact Option.noConfusion hbres
          · obtain ⟨hbe1, hbe2⟩ := Prod.mk.injEq _ _ _ _ ▸ Option.some.inj hbres
            subst hbe1
            exact ⟨_, _, hr, Or.inl rfl⟩

/--
C1: in the write path (_logstor_write and _logstor_write_one), every
completed request's event stream parses as chunks in the claim's order:
the data-sector write issued at sa = sega2sa(hot.sega) + ss_alloc_p,
then the reverse-map records ss_rm[ss_alloc_p] = ba advancing ss_alloc_p,
then, when ss_alloc_p reached SEG_SUM_OFF, the segment-summary write,
seg_alloc and clean_check, and only after all of these the forward-map
stores file_write_4byte(FD_ACTIVE, ba, sa); in particular the forward-map
update to a BA never precedes the recording of that BA in the reverse map.
-/
theorem logstor_write_order :
    (∀ st ba size afuel, (logstorWrite st ba size afuel).isSome = true →
      ChunksOk (evsOf (logstorWrite st ba size afuel))) ∧
    (∀ st ba devOk afuel, (logstorWriteOne st ba devOk afuel).isSome = true →
      ChunksOk (evsOf1 (logstorWriteOne st ba devOk afuel))) := by
  constructor
  · intro st ba size afuel h
    unfold logstorWrite at h ⊢
    split at h
    · rename_i hguard
      rw [if_pos hguard]
      obtain ⟨⟨evs, stf⟩, heq⟩ := Option.isSome_iff_exists.mp h
      rw [heq]
      exact writeLoop_chunks afuel size st ba size evs stf heq
    · simp at h
  · intro st ba devOk afuel h
    obtain ⟨r, heq⟩ := Option.isSome_iff_exists.mp h
    obtain ⟨bEvs, st₃, hr, hb⟩ := writeOne_shape st ba devOk afuel r heq
    rw [heq, hr]
    show ChunksOk (Ev.dataWrite (sega2sa st.hotSega + st.hotAllocP) 1
          :: Ev.recRM st.hotAllocP ba
          :: bEvs ++ [Ev.fwdMap ba (sega2sa st.hotSega + st.hotAllocP)])
    rcases hb with hb | ⟨g, h', hb⟩
    · subst hb
      exact ChunksOk.chunk st.hotSega st.hotAllocP ba 1 0 0 [] [] (by omega)
        (Or.inl rfl) ChunksOk.nil
    · subst hb
      exact ChunksOk.chunk st.hotSega st.hotAllocP ba 1 g h'
        [Ev.segSumWrite g, Ev.segAllocEv h', Ev.cleanCheck] [] (by omega)
        (Or.inr rfl) ChunksOk.nil

/-- C1 witness: a completed two-block write on the concrete opened state. -/
theorem logstor_write_order_witness :
    (logstorWrite stDemo 0 2 10).isSome = true ∧
    ChunksOk (evsOf (logstorWrite stDemo 0 2 10)) := by
  exact ⟨rfl, logstor_write_order.1 stDemo 0 2 10 rfl⟩

/-- Node lookup after an in-range store at the same index. -/
theorem node_set_self (l : List FNode) (b : Nat) (v : FNode) (h : b < l.length) :
    (l.set b v).getD b FNode.dflt = v := by
  simp [List.getD_eq_getElem?_getD, List.getElem?_set_eq_of_lt v h]

/-- Node lookup after a store at a different index. -/
theorem node_set_ne (l : List FNode) (b i : Nat) (v : FNode) (h : i ≠ b) :
    (l.set b v).getD i FNode.dflt = l.getD i FNode.dflt := by
  simp [List.getD_eq_getElem?_getD, List.getElem?_set_ne (fun hh => h hh.symm)]

/-- file_mod_init establishes the residency invariant: all fbufs on the
circular queue with ref_cnt 0. -/
theorem fbuf_inv_init (n : Nat) : fbufInv (initFPool n) := by
  intro i hi
  have hi' : i < n := by simpa [initFPool] using hi
  have hnode : (initFPool n).node i
      = { onCir := true, refCnt := 0, accessed := false, modified := false } := by
    simp [initFPool, FPool.node, List.getD_eq_getElem?_getD, List.getElem?_replicate, hi']
  refine ⟨?_, ?_, ?_, ?_⟩
  · show (List.range n).count i + List.count i [] + List.count i [] = 1
    simp [List.count_eq_one_of_mem (List.nodup_range n) (List.mem_range.mpr hi')]
  · rw [hnode]
    simp [initFPool, List.mem_range, hi']
  · intro _
    rw [hnode]
  · intro hmem
    rcases hmem with hmem | hmem <;> simp [initFPool] at hmem

/-- An fbuf on the circular queue with occupancy one is absent from the
indirect lists. -/
theorem occ_decomp (p : FPool) (i : Nat) (h : occCount p i = 1) (hc : i ∈ p.cirQ) :
    p.cirQ.count i = 1 ∧ p.indir0.count i = 0 ∧ p.indir1.count i = 0 := by
  have h1 : 0 < p.cirQ.count i := List.count_pos_iff.mpr hc
  unfold occCount at h
  omega

/-- An fbuf on an indirect list with occupancy one is absent from the
circular queue. -/
theorem occ_decomp_indir (p : FPool) (i : Nat) (h : occCount p i = 1)
    (hm : memIndir p i) :
    p.cirQ.count i = 0 ∧ p.indir0.count i + p.indir1.count i = 1 := by
  have h1 : 0 < p.indir0.count i + p.indir1.count i := by
    rcases hm with hm | hm
    · have := List.count_pos_iff.mpr hm
      omega
    · have := List.count_pos_iff.mpr hm
      omega
  unfold occCount at h
  omega

/-- Field form of the promotion step for a node on the circular queue. -/
theorem promote_pos_eq (p : FPool) (b d : Nat) (hb : b < p.nodes.length)
    (h : (p.node b).onCir = true) :
    promoteStep p b d =
      FPool.mk
        (p.nodes.set b (FNode.mk false 1 (p.node b).accessed (p.node b).modified))
        (p.cirQ.erase b)
        (if d = 0 then b :: p.indir0 else p.indir0)
        (if d = 0 then p.indir1 else b :: p.indir1) := by
  have h' : (p.nodes.getD b FNode.dflt).onCir = true := h
  simp only [promoteStep, FPool.node, h', if_true]
  rw [node_set_self _ _ _ hb]
  simp [List.set_set]

/-- Field form of the promotion step for a node already off the circular
queue (only the pre-emptive ref_cnt increment). -/
theorem promote_neg_eq (p : FPool) (b d : Nat)
    (h : ¬ (p.node b).onCir = true) :
    promoteStep p b d =
      FPool.mk
        (p.nodes.set b (FNode.mk (p.node b).onCir ((p.node b).refCnt + 1)
          (p.node b).accessed (p.node b).modified))
        p.cirQ p.indir0 p.indir1 := by
  simp [promoteStep, h]

/-- fbuf_get's promotion of an intermediate node preserves the residency
invariant. -/
theorem fbuf_inv_promote (p : FPool) (b d : Nat) (hinv : fbufInv p)
    (hb : b < p.nodes.length) (_hd : d ≤ 1) : fbufInv (promoteStep p b d) := by
  obtain ⟨hoccB, hflagB, hcirB, hindB⟩ := hinv b hb
  by_cases hcir : (p.node b).onCir = true
  · have hmem : b ∈ p.cirQ := (hflagB).mp hcir
    obtain ⟨hc1, hi0, hi1⟩ := occ_decomp p b hoccB hmem
    rw [promote_pos_eq p b d hb hcir]
    intro i hi
    have hi' : i < p.nodes.length := by simpa using hi
    simp only [occCount, FPool.node, memIndir]
    by_cases hib : i = b
    · subst hib
      rw [node_set_self _ _ _ hb]
      have hcnt_er : (p.cirQ.erase i).count i = 0 := by
        rw [List.count_erase_self]
        omega
      have hnotmem : i ∉ p.cirQ.erase i := by
        rw [← List.count_pos_iff]
        omega
      refine ⟨?_, ?_, ?_, ?_⟩
      · by_cases hd0 : d = 0 <;>
          simp [hd0, hcnt_er, List.count_cons_self, hi0, hi1]
      · simp [hnotmem]
      · intro hmem'
        exact absurd hmem' hnotmem
      · intro _
        simp
    · obtain ⟨hocc, hflag, hcirc, hind⟩ := hinv i hi'
      rw [node_set_ne _ _ _ _ hib]
      have hmem_er : i ∈ p.cirQ.erase b ↔ i ∈ p.cirQ := List.mem_erase_of_ne hib
      have hcnt_er : (p.cirQ.erase b).count i = p.cirQ.count i :=
        List.count_erase_of_ne hib p.cirQ
      unfold occCount at hocc
      refine ⟨?_, ?_, ?_, ?_⟩
      · by_cases hd0 : d = 0 <;>
          simp [hd0, hcnt_er, List.count_cons_of_ne hib] <;> omega
      · rw [hmem_er]
        exact hflag
      · intro hmem'
        exact hcirc (hmem_er.mp hmem')
      · intro hmem'
        apply hind
        unfold memIndir
        by_cases hd0 : d = 0
        · rw [if_pos hd0, if_pos hd0] at hmem'
          rcases hmem' with hm | hm
          · cases hm with
            | head => exact absurd rfl hib
            | tail _ hm => exact Or.inl hm
          · exact Or.inr hm
        · rw [if_neg hd0, if_neg hd0] at hmem'
          rcases hmem' with hm | hm
          · exact Or.inl hm
          · cases hm with
            | head => exact absurd rfl hib
            | tail _ hm => exact Or.inr hm
  · rw [promote_neg_eq p b d hcir]
    intro i hi
    have hi' : i < p.nodes.length := by simpa using hi
    obtain ⟨hocc, hflag, hcirc, hind⟩ := hinv i hi'
    simp only [occCount, FPool.node, memIndir]
    by_cases hib : i = b
    · subst hib
      rw [node_set_self _ _ _ hb]
      have hnotmem : i ∉ p.cirQ := fun hm => hcir (hflag.mpr hm)
      refine ⟨hocc, ?_, ?_, ?_⟩
      · simp only [hnotmem, iff_false]
        have h2 : (p.node i).onCir = false := by simpa using hcir
        simpa [FPool.node, List.getD_eq_getElem?_getD] using h2
      · intro hm
        exact absurd hm hnotmem
      · intro _
        simp
    · rw [node_set_ne _ _ _ _ hib]
      exact ⟨hocc, hflag, hcirc, hind⟩

/-- Field form of the parent detach when ref_cnt reaches 0. -/
theorem demote_eq0 (p : FPool) (pb : Nat)
    (h : (p.node pb).refCnt - 1 = 0) :
    demoteParent p pb =
      FPool.mk
        (p.nodes.set pb (FNode.mk true 0 false (p.node pb).modified))
        (p.cirQ ++ [pb]) (p.indir0.erase pb) (p.indir1.erase pb) := by
  have h' : (p.nodes.getD pb FNode.dflt).refCnt - 1 = 0 := h
  simp only [demoteParent, FPool.node, h', if_true]

/-- Field form of the parent detach when ref_cnt stays positive. -/
theorem demote_ne0 (p : FPool) (pb : Nat)
    (h : ¬ (p.node pb).refCnt - 1 = 0) :
    demoteParent p pb =
      FPool.mk
        (p.nodes.set pb (FNode.mk (p.node pb).onCir ((p.node pb).refCnt - 1)
          (p.node pb).accessed (p.node pb).modified))
        p.cirQ p.indir0 p.indir1 := by
  simp [demoteParent, h]

/-- fbuf_alloc's detach of the victim's parent preserves the residency
invariant (the source asserts the parent is not on the circular queue,
here the memIndir hypothesis). -/
theorem fbuf_inv_demote (p : FPool) (pb : Nat) (hinv : fbufInv p)
    (hpb : pb < p.nodes.length) (hmem : memIndir p pb) :
    fbufInv (demoteParent p pb) := by
  obtain ⟨hoccB, hflagB, hcirB, hindB⟩ := hinv pb hpb
  obtain ⟨hc0, hsum⟩ := occ_decomp_indir p pb hoccB hmem
  have hnotc : pb ∉ p.cirQ := by
    rw [← List.count_pos_iff]
    omega
  by_cases hr : (p.node pb).refCnt - 1 = 0
  · rw [demote_eq0 p pb hr]
    intro i hi
    have hi' : i < p.nodes.length := by simpa using hi
    simp only [occCount, FPool.node, memIndir]
    by_cases hib : i = pb
    · subst hib
      rw [node_set_self _ _ _ hpb]
      have hca : (p.cirQ ++ [i]).count i = p.cirQ.count i + 1 := by
        simp [List.count_append]
      have he0 : (p.indir0.erase i).count i = p.indir0.count i - 1 :=
        List.count_erase_self i p.indir0
      have he1 : (p.indir1.erase i).count i = p.indir1.count i - 1 :=
        List.count_erase_self i p.indir1
      refine ⟨?_, ?_, ?_, ?_⟩
      · rw [hca, he0, he1]
        omega
      · simp
      · intro _
        rfl
      · intro hm
        rcases hm with hm | hm
        · have := List.count_pos_iff.mpr hm
          omega
        · have := List.count_pos_iff.mpr hm
          omega
    · obtain ⟨hocc, hflag, hcirc, hind⟩ := hinv i hi'
      rw [node_set_ne _ _ _ _ hib]
      have hca : (p.cirQ ++ [pb]).count i = p.cirQ.count i := by
        simp [List.count_append, List.count_cons, hib]
      have hma : i ∈ p.cirQ ++ [pb] ↔ i ∈ p.cirQ := by
        simp [List.mem_append, hib]
      have he0 : (p.indir0.erase pb).count i = p.indir0.count i :=
        List.count_erase_of_ne hib p.indir0
      have he1 : (p.indir1.erase pb).count i = p.indir1.count i :=
        List.count_erase_of_ne hib p.indir1
      unfold occCount at hocc
      refine ⟨?_, ?_, ?_, ?_⟩
      · rw [hca, he0, he1]
        exact hocc
      · rw [hma]
        exact hflag
      · intro hm
        exact hcirc (hma.mp hm)
      · intro hm
        apply hind
        unfold memIndir
        rcases hm with hm | hm
        · exact Or.inl ((List.mem_erase_of_ne hib).mp hm)
        · exact Or.inr ((List.mem_erase_of_ne hib).mp hm)
  · rw [demote_ne0 p pb hr]
    intro i hi
    have hi' : i < p.nodes.length := by simpa using hi
    simp only [occCount, FPool.node, memIndir]
    by_cases hib : i = pb
    · subst hib
      rw [node_set_self _ _ _ hpb]
      refine ⟨hoccB, ?_, ?_, ?_⟩
      · constructor
        · intro hx
          exact absurd (hflagB.mp hx) hnotc
        · intro hx
          exact absurd hx hnotc
      · intro hm
        exact absurd hm hnotc
      · intro _
        show 0 < (p.node i).refCnt - 1
        omega
    · obtain ⟨hocc, hflag, hcirc, hind⟩ := hinv i hi'
      rw [node_set_ne _ _ _ _ hib]
      exact ⟨hocc, hflag, hcirc, hind⟩

/--
C8: the fbuf residency invariant — every fbuf is on exactly one of the
circular queue and the indirect lists, fbufs on an indirect list have
ref_cnt > 0 and fbufs on the circular queue have ref_cnt = 0 — holds
after file_mod_init and is preserved by fbuf_get's promotion of an
intermediate node to indirect_head[d] and by fbuf_alloc's detach of the
evicted buffer's parent (demotion to the circular queue when its ref_cnt
reaches 0).
-/
theorem fbuf_residency :
    (∀ n, fbufInv (initFPool n)) ∧
    (∀ p b d, fbufInv p → b < p.nodes.length → d ≤ 1 →
      fbufInv (promoteStep p b d)) ∧
    (∀ p pb, fbufInv p → pb < p.nodes.length → memIndir p pb →
      fbufInv (demoteParent p pb)) := by
  refine ⟨fbuf_inv_init, ?_, ?_⟩
  · intro p b d h1 h2 h3
    exact fbuf_inv_promote p b d h1 h2 h3
  · intro p pb h1 h2 h3
    exact fbuf_inv_demote p pb h1 h2 h3

/-- C8 witness: a three-buffer pool, promoting buffer 0 to depth 0 and
then detaching it as a parent. -/
theorem fbuf_residency_witness :
    fbufInv (initFPool 3) ∧
    fbufInv (promoteStep (initFPool 3) 0 0) ∧
    memIndir (promoteStep (initFPool 3) 0 0) 0 ∧
    fbufInv (demoteParent (promoteStep (initFPool 3) 0 0) 0) := by
  have h1 : fbufInv (initFPool 3) := by decide
  have h2 : fbufInv (promoteStep (initFPool 3) 0 0) :=
    fbuf_residency.2.1 (initFPool 3) 0 0 h1 (by decide) (by decide)
  have h3 : fbufInv (demoteParent (promoteStep (initFPool 3) 0 0) 0) :=
    fbuf_residency.2.2 (promoteStep (initFPool 3) 0 0) 0 h2 (by decide) (by decide)
  exact ⟨h1, h2, by decide, h3⟩
